import Mathlib

/-!
Verification of the member-list assembly and pagination core of
`src/components/right/management/ManageGroupMembers.tsx`.

The component's own computations (`adminIds`, `memberIds`, `displayedIds`,
`getMemberContextAction`) are embedded from the source file. The helpers it
imports (`sortUserIds`, `sortChatIds`, `unique`, `filterUsersByName`,
`isUserBot`, `useInfiniteScroll`) live outside the provided sources and are
modelled from the specification's descriptions of them.
-/

namespace ManageGroupMembers

/-- A chat member record; this component only ever reads its `userId`. -/
structure ApiChatMember where
  userId : String
deriving DecidableEq

/-- Modelled from the spec: the user record fields the core consults — a
bot-classification flag, the `canBeInvitedToGroup` capability (absent/undefined
is modelled as `false`, matching its use under JavaScript truthiness), and a
display name used only by name filtering. -/
structure ApiUser where
  isBot : Bool
  canBeInvitedToGroup : Bool
  name : String
deriving DecidableEq

/-- Modelled from the spec: per-user presence, used only as a sort key
(online > recently-online bucketed by last-seen > offline). -/
inductive ApiUserStatus where
  | online
  | recentlyOnline (lastSeen : Nat)
  | offline
deriving DecidableEq

/-- Modelled from the spec: bot-classification predicate (`isUserBot` is not
under the provided sources; it is an externally computed predicate on the user
record). -/
def isUserBot (u : ApiUser) : Bool := u.isBot

/-- Stable insertion step for `stableSortBy`. -/
def stableInsertBy (le : α → α → Bool) (a : α) : List α → List α
  | [] => [a]
  | b :: l => if le a b then a :: b :: l else b :: stableInsertBy le a l

/-- Stable insertion sort: with a total `le`, elements comparing equal keep
their input order. Used to model the spec's two stable ordering policies. -/
def stableSortBy (le : α → α → Bool) : List α → List α
  | [] => []
  | a :: l => stableInsertBy le a (stableSortBy le l)

/-- Presence ranking: online first, then recently-online by last-seen
(more recent first), then offline; unknown status ranks lowest and keeps
insertion order by stability. Compared lexicographically, descending. -/
def presenceKey : Option ApiUserStatus → Nat × Nat
  | some .online => (2, 0)
  | some (.recentlyOnline lastSeen) => (1, lastSeen)
  | some .offline => (0, 0)
  | none => (0, 0)

/-- Lexicographic comparison of presence keys. -/
def presenceLe (a b : Nat × Nat) : Bool :=
  a.1 < b.1 || (a.1 == b.1 && a.2 ≤ b.2)

/-- Modelled from the spec: `orderUsersByPresence` (`sortUserIds` in the
source, not under the provided sources) — a stable sort placing more recently
active identifiers first, falling back to insertion order for unknown status.
The user index parameter is kept for signature fidelity; the ranking reads
only the status index. -/
def sortUserIds (ids : List String) (_usersById : List (String × ApiUser))
    (userStatusesById : List (String × ApiUserStatus)) : List String :=
  stableSortBy
    (fun a b => presenceLe (presenceKey (userStatusesById.lookup b))
      (presenceKey (userStatusesById.lookup a)))
    ids

/-- Rank used by `sortChatIds`: with `preferExisting`, identifiers resolvable
in the chat index come first. -/
def chatRank (chatIds : List String) (preferExisting : Bool) (id : String) : Nat :=
  if preferExisting && chatIds.contains id then 0 else 1

/-- Modelled from the spec: `orderChatIdentifiers` (`sortChatIds` in the
source, not under the provided sources) — a stable sort of the final list;
when `preferExisting` is true, identifiers already resolvable in the chat
index sort before pure search hits. Only key-set membership of the chat index
is consulted, so the index is modelled by its key list. -/
def sortChatIds (ids : List String) (chatIds : List String)
    (preferExisting : Bool) : List String :=
  stableSortBy
    (fun a b => chatRank chatIds preferExisting a ≤ chatRank chatIds preferExisting b)
    ids

/-- Worker for `unique`, carrying the identifiers already emitted. -/
def uniqueAux : List String → List String → List String
  | [], _ => []
  | x :: xs, seen =>
    if seen.contains x then uniqueAux xs seen else x :: uniqueAux xs (x :: seen)

/-- Modelled from the spec: `deduplicate` (`unique` from `util/iteratees`, not
under the provided sources) — removes duplicates preserving first-occurrence
order. -/
def unique (xs : List String) : List String := uniqueAux xs []

/-- Substring test on character lists, used for case-insensitive name
matching. -/
def containsSub : List Char → List Char → Bool
  | [], needle => needle.isEmpty
  | c :: rest, needle => needle.isPrefixOf (c :: rest) || containsSub rest needle

/-- Modelled from the spec: `filterByNamePrefix` (`filterUsersByName`, not
under the provided sources) — keeps the identifiers whose resolved display
name contains the query case-insensitively; identifiers with no resolvable
user are dropped. -/
def filterUsersByName (ids : List String) (usersById : List (String × ApiUser))
    (query : String) : List String :=
  ids.filter fun id =>
    match usersById.lookup id with
    | none => false
    | some u => containsSub u.name.toLower.data query.toLower.data

/-- One render-cycle snapshot of every input the member-list core reads: the
component's props plus the global user/chat indexes read via `getGlobal()`.
Optional props are `Option`s; `noAdmins`, `isChannel` and `canDeleteMembers`
are modelled as `Bool` because the source only uses them under JavaScript
truthiness. `usersById` and `chatsById` are `Record`s in the source and hence
always present, so the source's `!usersById` truthiness guard can never fire
and they are not modelled as options; `chatsById` is consulted only for key
membership and is modelled by its key list. -/
structure Snapshot where
  noAdmins : Bool
  members : Option (List ApiChatMember)
  adminMembersById : Option (List (String × ApiChatMember))
  userStatusesById : List (String × ApiUserStatus)
  isChannel : Bool
  localContactIds : Option (List String)
  searchQuery : Option String
  localUserIds : Option (List String)
  globalUserIds : Option (List String)
  currentUserId : Option String
  canDeleteMembers : Bool
  usersById : List (String × ApiUser)
  chatsById : List String

/-- Source `adminIds` (lines 88–90): the admin index's key set when `noAdmins`
and the index are both present, else empty. -/
def adminIds (s : Snapshot) : List String :=
  match s.noAdmins, s.adminMembersById with
  | true, some adminMembersById => adminMembersById.map Prod.fst
  | _, _ => []

/-- Source `memberIds` (lines 92–106): presence-sorted member userIds,
filtered of `adminIds` when `noAdmins`. -/
def memberIds (s : Snapshot) : List String :=
  match s.members with
  | none => []
  | some members =>
    let userIds := sortUserIds (members.map ApiChatMember.userId) s.usersById s.userStatusesById
    if s.noAdmins then userIds.filter (fun userId => !(adminIds s).contains userId) else userIds

/-- Source `Boolean(searchQuery)` (line 112): true exactly for a non-empty
query string. -/
def shouldUseSearchResults (s : Snapshot) : Bool :=
  match s.searchQuery with
  | none => false
  | some query => query != ""

/-- Source `listedIds` (lines 113–115): the membership list, or in search mode
the name-filtered local contacts (empty when the contact list is absent). -/
def listedIds (s : Snapshot) : List String :=
  if !shouldUseSearchResults s then memberIds s
  else
    match s.localContactIds with
    | some localContactIds => filterUsersByName localContactIds s.usersById (s.searchQuery.getD "")
    | none => []

/-- The deduplicated merge of `listedIds` with the search-result id sequences
(source lines 118–121). -/
def mergedIds (s : Snapshot) : List String :=
  unique (listedIds s
    ++ (if shouldUseSearchResults s then s.localUserIds.getD [] else [])
    ++ (if shouldUseSearchResults s then s.globalUserIds.getD [] else []))

/-- The eligibility predicate of the `.filter` (source lines 122–130): an
identifier with no user record passes; a resolved user must be invitable
(channel, invite-capable, or not a bot) and, under `noAdmins`, not an admin. -/
def eligibleId (s : Snapshot) (contactId : String) : Bool :=
  match s.usersById.lookup contactId with
  | none => true
  | some user =>
    (s.isChannel || user.canBeInvitedToGroup || !isUserBot user)
      && (!s.noAdmins || !(adminIds s).contains contactId)

/-- Source `displayedIds` (lines 108–134): the merged, filtered, sorted list. -/
def displayedIds (s : Snapshot) : List String :=
  sortChatIds ((mergedIds s).filter (eligibleId s)) s.chatsById true

/-- A context-menu action as rendered; the side-effecting click handler is not
modelled. -/
structure MenuItemContextAction where
  title : String
  icon : String
deriving DecidableEq

/-- Source `getMemberContextAction` (lines 170–178): no action for the
viewer's own id or without the `canDeleteMembers` capability, else the
"remove from group" action. -/
def getMemberContextAction (s : Snapshot) (memberId : String) :
    Option (List MenuItemContextAction) :=
  if s.currentUserId = some memberId ∨ s.canDeleteMembers = false then none
  else some [{ title := "lng_context_remove_from_group", icon := "stop" }]

/-- Modelled from the spec: the initial page size of `useInfiniteScroll` (the
hook is not under the provided sources). -/
def INITIAL_PAGE_SIZE : Nat := 20

/-- Modelled from the spec: the fixed page increment of `useInfiniteScroll`. -/
def PAGE_INCREMENT : Nat := 20

/-- Modelled from the spec: the initial viewport size, one page capped at the
list length. -/
def initialViewportSize (total : Nat) : Nat := min INITIAL_PAGE_SIZE total

/-- Modelled from the spec: `LoadMore` grows the viewport size by a fixed
increment, capped at the list length. -/
def loadMore (total size : Nat) : Nat := min (size + PAGE_INCREMENT) total

/-- Modelled from the spec: the viewport is the size-bounded front segment of
the assembled list. -/
def viewportIds (ids : List String) (size : Nat) : List String := ids.take size

/-- The viewport sizes reachable for a list of `total` entries: the initial
size, closed under `loadMore`. -/
inductive ReachableSize (total : Nat) : Nat → Prop
  | init : ReachableSize total (initialViewportSize total)
  | step {size : Nat} : ReachableSize total size → ReachableSize total (loadMore total size)

/-! ### Helper lemmas -/

theorem stableInsertBy_perm (le : α → α → Bool) (a : α) (l : List α) :
    (stableInsertBy le a l).Perm (a :: l) := by
  induction l with
  | nil => exact List.Perm.refl _
  | cons b l ih =>
    rw [stableInsertBy]
    by_cases h : le a b = true
    · rw [if_pos h]
    · rw [if_neg h]
      exact (ih.cons b).trans (List.Perm.swap a b l)

theorem stableSortBy_perm (le : α → α → Bool) (l : List α) :
    (stableSortBy le l).Perm l := by
  induction l with
  | nil => exact List.Perm.refl _
  | cons a l ih => exact (stableInsertBy_perm le a _).trans (ih.cons a)

theorem sortUserIds_perm (ids : List String) (usersById : List (String × ApiUser))
    (userStatusesById : List (String × ApiUserStatus)) :
    (sortUserIds ids usersById userStatusesById).Perm ids :=
  stableSortBy_perm _ ids

theorem sortChatIds_perm (ids chatIds : List String) (preferExisting : Bool) :
    (sortChatIds ids chatIds preferExisting).Perm ids :=
  stableSortBy_perm _ ids

theorem contains_iff {l : List String} {a : String} : l.contains a = true ↔ a ∈ l :=
  List.elem_iff

theorem mem_uniqueAux {a : String} (xs seen : List String) :
    a ∈ uniqueAux xs seen ↔ a ∈ xs ∧ a ∉ seen := by
  induction xs generalizing seen with
  | nil => simp [uniqueAux]
  | cons x xs ih =>
    rw [uniqueAux]
    by_cases hx : seen.contains x = true
    · rw [if_pos hx, ih]
      constructor
      · exact fun ⟨h1, h2⟩ => ⟨List.mem_cons_of_mem x h1, h2⟩
      · rintro ⟨h1, h2⟩
        rcases List.mem_cons.mp h1 with rfl | h1
        · exact absurd (contains_iff.mp hx) h2
        · exact ⟨h1, h2⟩
    · rw [if_neg hx]
      by_cases hax : a = x
      · subst hax
        exact iff_of_true (List.mem_cons_self a _)
          ⟨List.mem_cons_self a _, fun h => hx (contains_iff.mpr h)⟩
      · rw [List.mem_cons, or_iff_right hax, ih, List.mem_cons, or_iff_right hax,
          List.mem_cons, or_iff_right hax]

theorem nodup_uniqueAux (xs seen : List String) : (uniqueAux xs seen).Nodup := by
  induction xs generalizing seen with
  | nil => exact List.nodup_nil
  | cons x xs ih =>
    rw [uniqueAux]
    by_cases hx : seen.contains x = true
    · rw [if_pos hx]; exact ih seen
    · rw [if_neg hx]
      refine List.Nodup.cons ?_ (ih (x :: seen))
      intro hmem
      exact ((mem_uniqueAux xs (x :: seen)).mp hmem).2 (List.mem_cons_self x seen)

theorem mem_unique {a : String} (xs : List String) : a ∈ unique xs ↔ a ∈ xs := by
  rw [unique, mem_uniqueAux]
  simp

theorem nodup_unique (xs : List String) : (unique xs).Nodup :=
  nodup_uniqueAux xs []

theorem mem_displayedIds (s : Snapshot) (a : String) :
    a ∈ displayedIds s ↔ a ∈ mergedIds s ∧ eligibleId s a = true := by
  rw [displayedIds]
  rw [(sortChatIds_perm _ _ _).mem_iff, List.mem_filter]

/-! ### Concrete snapshots used as witnesses and counterexamples -/

/-- A snapshot with every optional input absent and every index empty. -/
def baseSnap : Snapshot :=
  { noAdmins := false, members := none, adminMembersById := none,
    userStatusesById := [], isChannel := false, localContactIds := none,
    searchQuery := none, localUserIds := none, globalUserIds := none,
    currentUserId := none, canDeleteMembers := false, usersById := [], chatsById := [] }

/-- A non-bot user with no invite capability and display name "Ann". -/
def plainUser : ApiUser := { isBot := false, canBeInvitedToGroup := false, name := "Ann" }

/-- A bot that cannot be invited to a group. -/
def botUser : ApiUser := { isBot := true, canBeInvitedToGroup := false, name := "Bot" }

/-- Searching with a global hit "u9" that has no record in the user index. -/
def snapC1 : Snapshot := { baseSnap with searchQuery := some "x", globalUserIds := some ["u9"] }

/-- Admins-only mode where the admin "u9" is also a global search hit with no
record in the user index. -/
def snapC2 : Snapshot :=
  { baseSnap with
    noAdmins := true
    adminMembersById := some [("u9", ⟨"u9"⟩)]
    searchQuery := some "x"
    globalUserIds := some ["u9"] }

/-- Admins-only mode with a resolved non-admin member "u1". -/
def snapC2w : Snapshot :=
  { baseSnap with
    noAdmins := true
    adminMembersById := some [("a1", ⟨"a1"⟩)]
    searchQuery := none
    members := some [⟨"u1"⟩]
    usersById := [("u1", plainUser)] }

/-- A non-channel search whose only hit resolves to an uninvitable bot. -/
def snapC4 : Snapshot :=
  { baseSnap with
    searchQuery := some "x"
    globalUserIds := some ["b1"]
    usersById := [("b1", botUser)] }

/-- A membership list containing the same userId twice. -/
def snapC5 : Snapshot :=
  { baseSnap with
    searchQuery := none
    members := some [⟨"u1"⟩, ⟨"u1"⟩]
    usersById := [("u1", plainUser)] }

/-! ### Claim theorems -/

/-- C1 counterexample: in snapshot `snapC1`, the identifier "u9" is in the
merged candidate list and has no record in the user index, yet it appears in
`displayedIds` — the eligibility filter keeps unresolvable identifiers rather
than dropping them, refuting the claim as stated. -/
theorem c1_counterexample_unresolved_id_displayed :
    snapC1.usersById.lookup "u9" = none ∧ "u9" ∈ mergedIds snapC1
      ∧ "u9" ∈ displayedIds snapC1 :=
  ⟨rfl, by decide, by decide⟩

/-- C1 (amended): an identifier in the merged candidate list with no
corresponding user record passes the eligibility filter and is retained in
`displayedIds`; its absence from the user index never causes a failure. -/
theorem c1_unresolved_ids_are_kept (s : Snapshot) (id : String)
    (hmem : id ∈ mergedIds s) (hu : s.usersById.lookup id = none) :
    id ∈ displayedIds s := by
  rw [mem_displayedIds]
  refine ⟨hmem, ?_⟩
  rw [eligibleId, hu]

/-- C1 witness: the amended theorem applied to `snapC1` at "u9". -/
theorem c1_unresolved_ids_are_kept_witness : "u9" ∈ displayedIds snapC1 :=
  c1_unresolved_ids_are_kept snapC1 "u9" (by decide) rfl

/-- C2 counterexample: in snapshot `snapC2`, `noAdmins` is set and "u9" is a
key of the admin index, yet "u9" appears in `displayedIds` (it arrives as a
search hit with no user record, and the eligibility filter skips the admin
check for unresolvable identifiers), refuting `displayedIds ∩ adminIds = ∅`. -/
theorem c2_counterexample_admin_displayed :
    snapC2.noAdmins = true ∧ "u9" ∈ adminIds snapC2 ∧ "u9" ∈ displayedIds snapC2 :=
  ⟨rfl, by decide, by decide⟩

/-- C2 (amended): in admins-only mode, every identifier of `displayedIds` that
is resolvable in the user index is not a key of the admin index. -/
theorem c2_admin_exclusion_for_resolved_ids (s : Snapshot) (id : String) (u : ApiUser)
    (hna : s.noAdmins = true) (hu : s.usersById.lookup id = some u)
    (hd : id ∈ displayedIds s) : id ∉ adminIds s := by
  intro hadmin
  have he := ((mem_displayedIds s id).mp hd).2
  rw [eligibleId, hu, hna] at he
  simp only [Bool.not_true, Bool.false_or, Bool.and_eq_true, Bool.not_eq_true'] at he
  exact absurd (contains_iff.mpr hadmin) (by rw [he.2]; exact Bool.false_ne_true)

/-- C2 witness: the amended theorem applied to `snapC2w` at the resolved
member "u1". -/
theorem c2_admin_exclusion_for_resolved_ids_witness :
    snapC2w.usersById.lookup "u1" = some plainUser ∧ "u1" ∉ adminIds snapC2w :=
  ⟨rfl, c2_admin_exclusion_for_resolved_ids snapC2w "u1" plainUser rfl rfl (by decide)⟩

/-- C3: `displayedIds` never contains a repeated identifier — deduplication
happens before the eligibility filter, and the final ordering is a
permutation. -/
theorem c3_displayedIds_nodup (s : Snapshot) : (displayedIds s).Nodup := by
  rw [displayedIds]
  exact ((sortChatIds_perm _ _ _).nodup_iff).mpr ((nodup_unique _).filter _)

/-- C4: in a non-channel snapshot, an identifier whose resolved user is a bot
that cannot be invited to a group, and which is not among the members'
userIds, is excluded from `displayedIds`. (The code in fact excludes such bots
regardless of membership.) -/
theorem c4_uninvitable_bots_excluded (s : Snapshot) (id : String) (u : ApiUser)
    (hch : s.isChannel = false) (hu : s.usersById.lookup id = some u)
    (hbot : isUserBot u = true) (hinv : u.canBeInvitedToGroup = false)
    (_hnotmem : ∀ m ∈ s.members.getD [], m.userId ≠ id) :
    id ∉ displayedIds s := by
  intro hd
  have he := ((mem_displayedIds s id).mp hd).2
  simp only [eligibleId, hu, hch, hinv, hbot, isUserBot] at he
  simp at he
  rw [isUserBot] at hbot
  rw [he.1] at hbot
  exact Bool.false_ne_true hbot

/-- C4 witness: the theorem applied to `snapC4` at the bot "b1". -/
theorem c4_uninvitable_bots_excluded_witness : "b1" ∉ displayedIds snapC4 :=
  c4_uninvitable_bots_excluded snapC4 "b1" botUser rfl rfl rfl rfl (by simp [snapC4, baseSnap])

/-- The spec's formula for `memberIds`, written from the spec's words for
comparison with the source's `memberIds`: it deduplicates the members'
userIds before presence ordering. -/
def memberIdsSpec (s : Snapshot) : List String :=
  match s.members with
  | none => []
  | some members =>
    let userIds := sortUserIds (unique (members.map ApiChatMember.userId))
      s.usersById s.userStatusesById
    if s.noAdmins then userIds.filter (fun userId => !(adminIds s).contains userId) else userIds

/-- C5 counterexample: with a duplicated member entry, the source's
`memberIds` keeps both occurrences ("u1" twice) while the claimed formula
(deduplication before ordering) yields a single occurrence. -/
theorem c5_counterexample_duplicates_retained :
    memberIds snapC5 = ["u1", "u1"] ∧ memberIdsSpec snapC5 = ["u1"]
      ∧ memberIds snapC5 ≠ memberIdsSpec snapC5 :=
  ⟨rfl, rfl, by decide⟩

/-- C5 (amended): `memberIds` is a permutation of the raw members' userIds —
duplicates retained, each occurrence kept — filtered of `adminIds` when
admins-only mode is on. -/
theorem c5_memberIds_perm_raw (s : Snapshot) (members : List ApiChatMember)
    (h : s.members = some members) :
    (memberIds s).Perm ((members.map ApiChatMember.userId).filter
      (fun userId => !s.noAdmins || !(adminIds s).contains userId)) := by
  rw [memberIds, h]
  cases hna : s.noAdmins with
  | false =>
    simp only [Bool.false_eq_true, if_false, Bool.not_false, Bool.true_or, List.filter_true]
    exact sortUserIds_perm _ _ _
  | true =>
    simp only [Bool.not_true, Bool.false_or, if_true]
    exact (sortUserIds_perm _ _ _).filter _

/-- C5 witness: the amended theorem applied to `snapC5`. -/
theorem c5_memberIds_perm_raw_witness :
    (memberIds snapC5).Perm ((([⟨"u1"⟩, ⟨"u1"⟩] : List ApiChatMember).map
      ApiChatMember.userId).filter
      (fun userId => !snapC5.noAdmins || !(adminIds snapC5).contains userId)) :=
  c5_memberIds_perm_raw snapC5 [⟨"u1"⟩, ⟨"u1"⟩] rfl

/-- C6: with a non-empty query, `displayedIds` is independent of the raw
membership list and its merged candidates are exactly the deduplicated
name-filtered local contacts followed by the local and global search-result
sequences; with an absent or empty query, the merged candidates are exactly
the deduplicated `memberIds`. -/
theorem c6_search_mode_sources (s : Snapshot) :
    ((∃ q, s.searchQuery = some q ∧ q ≠ "") →
      (∀ ms, displayedIds { s with members := ms } = displayedIds s) ∧
        mergedIds s = unique (filterUsersByName (s.localContactIds.getD [])
          s.usersById (s.searchQuery.getD "")
          ++ s.localUserIds.getD [] ++ s.globalUserIds.getD []))
    ∧ ((s.searchQuery = none ∨ s.searchQuery = some "") →
      mergedIds s = unique (memberIds s)) := by
  constructor
  · rintro ⟨q, hq, hne⟩
    have hs : shouldUseSearchResults s = true := by
      rw [shouldUseSearchResults, hq]
      exact bne_iff_ne.mpr hne
    have hl : ∀ ms, listedIds { s with members := ms } = listedIds s := by
      intro ms
      rw [listedIds, listedIds,
        show shouldUseSearchResults { s with members := ms } = true from hs, hs]
      rfl
    have hmerge : ∀ ms, mergedIds { s with members := ms } = mergedIds s := by
      intro ms
      rw [mergedIds, mergedIds, hl ms]
      rfl
    constructor
    · intro ms
      rw [displayedIds, displayedIds, hmerge ms]
      rfl
    · have hcontacts : listedIds s = filterUsersByName (s.localContactIds.getD [])
          s.usersById (s.searchQuery.getD "") := by
        rw [listedIds, hs]
        cases hc : s.localContactIds with
        | none => rfl
        | some localContactIds => rfl
      rw [mergedIds, hs, hcontacts]
      rfl
  · intro hq
    have hs : shouldUseSearchResults s = false := by
      rcases hq with h | h <;> simp [shouldUseSearchResults, h]
    rw [mergedIds, listedIds, hs]
    simp

/-- C6 witness: the theorem applied to `snapC1`, whose query "x" is
non-empty. -/
theorem c6_search_mode_sources_witness :
    mergedIds snapC1 = unique (filterUsersByName (snapC1.localContactIds.getD [])
      snapC1.usersById (snapC1.searchQuery.getD "")
      ++ snapC1.localUserIds.getD [] ++ snapC1.globalUserIds.getD []) :=
  ((c6_search_mode_sources snapC1).1 ⟨"x", rfl, by decide⟩).2

/-- C7: in every reachable pagination state, the viewport is the length-`size`
front segment of `displayedIds` (concatenating the dropped tail restores the
list, and the two agree element-for-element below `size`), the size never
exceeds the length of `displayedIds`, and a further `loadMore` never decreases
it. -/
theorem c7_viewport_prefix_and_monotone (s : Snapshot) (size : Nat)
    (h : ReachableSize (displayedIds s).length size) :
    viewportIds (displayedIds s) size ++ (displayedIds s).drop size = displayedIds s
    ∧ (∀ i, i < size → (viewportIds (displayedIds s) size)[i]? = (displayedIds s)[i]?)
    ∧ size ≤ (displayedIds s).length
    ∧ size ≤ loadMore (displayedIds s).length size := by
  have hle : size ≤ (displayedIds s).length := by
    induction h with
    | init => exact Nat.min_le_right _ _
    | step _ _ => exact Nat.min_le_right _ _
  refine ⟨List.take_append_drop _ _, ?_, hle, ?_⟩
  · intro i hi
    rw [viewportIds, List.getElem?_take, if_pos hi]
  · exact le_min (Nat.le_add_right _ _) hle

/-- C7 witness: the theorem applied to the empty snapshot in its initial
pagination state. -/
theorem c7_viewport_prefix_and_monotone_witness :
    viewportIds (displayedIds baseSnap) 0 ++ (displayedIds baseSnap).drop 0
        = displayedIds baseSnap
    ∧ (∀ i, i < 0 → (viewportIds (displayedIds baseSnap) 0)[i]? = (displayedIds baseSnap)[i]?)
    ∧ 0 ≤ (displayedIds baseSnap).length
    ∧ 0 ≤ loadMore (displayedIds baseSnap).length 0 :=
  c7_viewport_prefix_and_monotone baseSnap 0 ReachableSize.init

/-- C8: the per-member context action exists exactly when the identifier is
not the viewer's own id and the `canDeleteMembers` capability holds; in every
other case `getMemberContextAction` returns `none`. -/
theorem c8_context_action_iff (s : Snapshot) (memberId : String) :
    getMemberContextAction s memberId ≠ none ↔
      s.currentUserId ≠ some memberId ∧ s.canDeleteMembers = true := by
  constructor
  · intro hne
    by_cases h : s.currentUserId = some memberId ∨ s.canDeleteMembers = false
    · exact absurd (by rw [getMemberContextAction, if_pos h]) hne
    · push_neg at h
      refine ⟨h.1, ?_⟩
      cases hb : s.canDeleteMembers
      · exact absurd hb h.2
      · rfl
  · rintro ⟨h1, h2⟩
    have hcond : ¬(s.currentUserId = some memberId ∨ s.canDeleteMembers = false) := by
      rintro (h | h)
      · exact h1 h
      · rw [h2] at h
        exact absurd h (by decide)
    rw [getMemberContextAction, if_neg hcond]
    exact Option.some_ne_none _

/-- C9: with an absent or empty query, `displayedIds` does not depend on the
local contact list or the local/global search-result sequences: replacing all
three by anything leaves the output unchanged. -/
theorem c9_empty_query_ignores_search_inputs (s : Snapshot)
    (h : s.searchQuery = none ∨ s.searchQuery = some "")
    (lc lu gu : Option (List String)) :
    displayedIds { s with
      localContactIds := lc
      localUserIds := lu
      globalUserIds := gu } = displayedIds s := by
  have hs : shouldUseSearchResults s = false := by
    rcases h with h | h <;> simp [shouldUseSearchResults, h]
  have hs' : shouldUseSearchResults { s with
      localContactIds := lc
      localUserIds := lu
      globalUserIds := gu } = false := hs
  have hl : listedIds { s with
      localContactIds := lc
      localUserIds := lu
      globalUserIds := gu } = listedIds s := by
    rw [listedIds, listedIds, hs, hs']
    rfl
  have hm : mergedIds { s with
      localContactIds := lc
      localUserIds := lu
      globalUserIds := gu } = mergedIds s := by
    rw [mergedIds, mergedIds, hl, hs, hs']
    rfl
  rw [displayedIds, displayedIds, hm]
  rfl

/-- C9 witness: the theorem applied to the empty snapshot with arbitrary
contact and search-result lists substituted. -/
theorem c9_empty_query_ignores_search_inputs_witness :
    displayedIds { baseSnap with
      localContactIds := some ["z"]
      localUserIds := some ["y"]
      globalUserIds := some ["w"] } = displayedIds baseSnap :=
  c9_empty_query_ignores_search_inputs baseSnap (Or.inl rfl)
    (some ["z"]) (some ["y"]) (some ["w"])

/-- Admins-only mode with members but no admin index. -/
def snapC10 : Snapshot :=
  { baseSnap with
    noAdmins := true
    members := some [⟨"u1"⟩]
    usersById := [("u1", plainUser)] }

/-- C10: when `noAdmins` is set but the admin index is absent, `adminIds` is
empty and both `memberIds` and `displayedIds` coincide with the computation in
which admin exclusion is off. -/
theorem c10_missing_admin_index_disables_exclusion (s : Snapshot)
    (h : s.adminMembersById = none) :
    adminIds s = [] ∧ memberIds s = memberIds { s with noAdmins := false }
      ∧ displayedIds s = displayedIds { s with noAdmins := false } := by
  have hA : adminIds s = [] := by
    rw [adminIds, h]
    cases hna : s.noAdmins <;> rfl
  have hA' : adminIds { s with noAdmins := false } = [] := rfl
  have hM : memberIds s = memberIds { s with noAdmins := false } := by
    rw [memberIds, memberIds,
      show ({ s with noAdmins := false } : Snapshot).members = s.members from rfl]
    cases hmem : s.members with
    | none => rfl
    | some members =>
      cases hna : s.noAdmins with
      | false => rfl
      | true => simp [hA, hA']
  have hE : eligibleId s = eligibleId { s with noAdmins := false } := by
    funext id
    rw [eligibleId, eligibleId,
      show ({ s with noAdmins := false } : Snapshot).usersById = s.usersById from rfl]
    cases hu : s.usersById.lookup id with
    | none => rfl
    | some u => simp [hA, hA']
  have hL : listedIds s = listedIds { s with noAdmins := false } := by
    rw [listedIds, listedIds, hM]
    rfl
  have hMerged : mergedIds s = mergedIds { s with noAdmins := false } := by
    rw [mergedIds, mergedIds, hL]
    rfl
  refine ⟨hA, hM, ?_⟩
  rw [displayedIds, displayedIds, hMerged, hE]

/-- C10 witness: the theorem applied to `snapC10`. -/
theorem c10_missing_admin_index_disables_exclusion_witness :
    adminIds snapC10 = [] ∧ memberIds snapC10 = memberIds { snapC10 with noAdmins := false }
      ∧ displayedIds snapC10 = displayedIds { snapC10 with noAdmins := false } :=
  c10_missing_admin_index_disables_exclusion snapC10 rfl

end ManageGroupMembers
